import Mathlib

/-! # Verification of the ComplyCo watchman batch-search core

Shallow embedding of `cmd/internal/search_batch.go` (server-side batch
dispatcher), the CLI batch variant (`cmd/cc_batchsearch`), and the
`client.SearchResult` model, with proofs of the specification's claims.

Go `float64` values are modelled as rationals (`ℚ`); where a concrete claim
depends on the exact IEEE-754 double of a literal, the exact rational value of
that double is used.  Go strings are modelled as Lean `String`s, with the
`strings` package operations implemented structurally on character lists.
Network effects are modelled by passing the remote API as explicit functions
(`Except` for Go's `(value, error)` returns), and the nondeterministic arrival
order on the completion channel is an explicit argument (a permutation of row
indices).
-/

namespace Watchman

/-- Embeds `client.SearchResult` (client/model_search_result.go).  The Go
pointer fields `EntityID` and `SdnName` become `Option String` (`none` for
`nil`); the Go field `Type` is `SdnType` here (`Type` is a Lean keyword). -/
structure SearchResult where
  IsSet : Bool
  EntityID : Option String
  SdnName : Option String
  SdnType : String
  Score : ℚ
  Programs : List String
  Remarks : String := ""
  Timestamp : String := ""
  deriving Repr, DecidableEq

/-- Embeds the `moov.OfacSdn` fields used by `search_batch.go`. -/
structure OfacSdn where
  EntityID : String
  SdnName : String
  SdnType : String
  Programs : List String
  Match : ℚ
  deriving Repr, DecidableEq

/-- Embeds the `moov.OfacAlt` fields used by `search_batch.go`. -/
structure OfacAlt where
  EntityID : String
  AlternateName : String
  Match : ℚ
  deriving Repr, DecidableEq

/-- Embeds the search response shape consumed by `searchByName`: the primary
candidates (`SDNs`) and the alternate-name cross references (`AltNames`). -/
structure SearchResponse where
  SDNs : List OfacSdn
  AltNames : List OfacAlt
  deriving Repr, DecidableEq

/-- Embeds the `moov.OfacCustomer` fields used by `searchByName`. -/
structure OfacCustomer where
  Sdn : OfacSdn
  deriving Repr, DecidableEq

/-- The remote service as seen by `searchByName`: the primary search endpoint
and the lookup-by-entity-id endpoint (`api.WatchmanApi.Search` and
`api.WatchmanApi.GetOfacCustomer`).  An `Except.error` models a nil-check
failing transport/timeout error; the search options are absorbed into the
function. -/
structure ApiClient where
  Search : String → Except String SearchResponse
  GetOfacCustomer : String → Except String OfacCustomer

/-- Embeds `ChanResult` of search_batch.go lines 101-104: one completion-channel
delivery, the original row index plus the formatted line. -/
structure ChanResult where
  Index : ℕ
  Value : String
  deriving Repr, DecidableEq

/-- The two log lines of search_batch.go lines 152-157: `[SUCCESS] n checks
complete` versus `[FAILURES] done of total checks complete`. -/
inductive BatchSummary where
  | success (count : ℕ)
  | failures (count total : ℕ)
  deriving Repr, DecidableEq

/-- Embeds `getNoun` of search_batch.go lines 181-189.  The Go global
`matchThreshold` becomes the first argument. -/
def getNoun (matchThreshold score : ℚ) : String :=
  if score < 0 then "Clear"
  else if score ≥ matchThreshold then "MATCH"
  else "Hit"

/-- The cutset of `trimDelimiters` in search_batch.go line 178: `",\n\r\t"`. -/
def delimCut (c : Char) : Bool :=
  c == ',' || c == '\n' || c == '\r' || c == '\t'

/-- Models `strings.Trim`: drop leading and trailing characters satisfying `p`. -/
def goTrim (p : Char → Bool) (s : String) : String :=
  String.mk (((s.data.dropWhile p).reverse.dropWhile p).reverse)

/-- Embeds `trimDelimiters` of search_batch.go lines 176-179. -/
def trimDelimiters (s : String) : String := goTrim delimCut s

/-- The trim set as the spec words it (§4.1): "leading/trailing commas, tabs,
and newline/carriage-return characters". -/
def specDelim (c : Char) : Bool :=
  c == ',' || c == '\t' || c == '\n' || c == '\r'

/-- Spec section 4.1 trimming, defined from the spec's words, for comparison with
`trimDelimiters` from the source. -/
def specTrim (s : String) : String := goTrim specDelim s

/-- Models `strings.Split` on a single-character separator, on the character list of
the string: splitting an empty string yields `[[]]` (Go: `[""]`), and the
result always has one more part than there are separators. -/
def splitChar (sep : Char) : List Char → List (List Char)
  | [] => [[]]
  | c :: rest =>
    match splitChar sep rest with
    | [] => [[c]]
    | h :: t => if c == sep then [] :: h :: t else (c :: h) :: t

/-- Models `strings.Split` as a `String` operation (never returns `[]`). -/
def goSplit (sep : Char) (s : String) : List String :=
  (splitChar sep s.data).map String.mk

/-- Embeds `getNameFromRow` of search_batch.go lines 162-174.  `cols` is never empty
(`goSplit` of anything has at least one part), so Go's `cols[0]` is total and
`getD` with a default is exact. -/
def getNameFromRow (row : String) : String :=
  let cols := goSplit ',' row
  if cols.length ≥ 3 then
    trimDelimiters (cols.getD 2 "") ++ ", " ++ trimDelimiters (cols.getD 1 "")
  else if cols.length = 2 then
    trimDelimiters (cols.getD 1 "") ++ ", " ++ trimDelimiters (cols.getD 0 "")
  else
    trimDelimiters (cols.getD 0 "")

/-! ## Result formatting (search_batch.go lines 206-256)

Go's `fmt.Sprintf("%.2f", x)` prints the `float64` `x` correctly rounded to
two decimals (nearest, ties to even, on the exact binary value).  Scores are
rationals here, so the rounding is computed exactly on `num/den`; concrete
claims use the exact rational value of the IEEE-754 double in question. -/

/-- Round `100 * num / den` (`den ≠ 0`) to the nearest integer, ties to even:
the number of cents printed by `%.2f` for a nonnegative value `num/den`. -/
def centsRoundHalfEven (num : ℤ) (den : ℕ) : ℤ :=
  let n := 100 * num
  let f := n.ediv den
  let r := n.emod den
  if 2 * r < (den : ℤ) then f
  else if (den : ℤ) < 2 * r then f + 1
  else if f.emod 2 = 0 then f else f + 1

/-- Two-digit zero-padded decimal. -/
def pad2 (n : ℕ) : String := if n < 10 then "0" ++ toString n else toString n

/-- Renders cents as a fixed-two-decimal string, e.g. `99 ↦ "0.99"`. -/
def fmt2OfNat (n : ℕ) : String := toString (n / 100) ++ "." ++ pad2 (n % 100)

/-- Models `fmt.Sprintf` with verb `%.2f`: sign, then the magnitude rounded to two
decimals (nearest, ties to even). -/
def formatFloat2 (q : ℚ) : String :=
  if q.num < 0 then "-" ++ fmt2OfNat (centsRoundHalfEven (-q.num) q.den).toNat
  else fmt2OfNat (centsRoundHalfEven q.num q.den).toNat

/-- Elements separated by single spaces. -/
def spaceJoin : List String → String
  | [] => ""
  | [p] => p
  | p :: rest => p ++ " " ++ spaceJoin rest

/-- Go `fmt`'s `%s`/`%v` rendering of a `[]string`: elements separated by
single spaces inside brackets (`[]string{}` prints as `"[]"`). -/
def formatPrograms (ps : List String) : String := "[" ++ spaceJoin ps ++ "]"

/-- Lines 207-211 of search_batch.go: if the SDN name contains a comma, split
on commas and emit `"{parts[1]} {parts[0]}"` (note: `strings.Split` keeps the
space after the comma, so `"Smith, John"` becomes `" John Smith"`). -/
def sdnNameNoComma (name : String) : String :=
  if name.data.any (· == ',') then
    let parts := goSplit ',' name
    parts.getD 1 "" ++ " " ++ parts.getD 0 ""
  else name

/-- Embeds `newSearchResultRecord` of search_batch.go lines 206-223.  The Go global
`matchThreshold` and the `time.Now()` RFC-3339 timestamp become the arguments
`matchThreshold` and `now`.  The Go code dereferences `*result.SdnName` /
`*result.EntityID`; callers only pass results with `IsSet = true`, whose
fields are set, so the `Option.getD ""` defaults are never hit there. -/
def newSearchResultRecord (matchThreshold : ℚ) (now : String)
    (result : SearchResult) (input_row : String) : String :=
  trimDelimiters input_row ++ "," ++ getNoun matchThreshold result.Score ++ ","
    ++ sdnNameNoComma (result.SdnName.getD "") ++ "," ++ result.EntityID.getD ""
    ++ "," ++ formatFloat2 result.Score ++ "," ++ formatPrograms result.Programs
    ++ "," ++ now

/-- Embeds `newSearchResultClearRecord` of search_batch.go lines 225-232. -/
def newSearchResultClearRecord (matchThreshold : ℚ) (now : String)
    (result : SearchResult) (searched_name : String) : String :=
  trimDelimiters searched_name ++ "," ++ getNoun matchThreshold result.Score
    ++ ",,,,," ++ now

/-- Embeds `writeHeadings` of search_batch.go lines 234-245. -/
def writeHeadings (original_headings : String) : String :=
  trimDelimiters original_headings ++ ","
    ++ "Result" ++ "," ++ "SdnName" ++ "," ++ "EntityID" ++ ","
    ++ "Score" ++ "," ++ "Programs" ++ "," ++ "Timestamp"

/-- Embeds `newSearchResult` of search_batch.go lines 247-256. -/
def newSearchResult (query_result : OfacSdn) (entity_id : String) (score : ℚ) :
    SearchResult where
  IsSet := true
  EntityID := some entity_id
  SdnName := some query_result.SdnName
  SdnType := query_result.SdnType
  Score := score
  Programs := query_result.Programs

/-- The `empty_result` literal of `searchByName` (search_batch.go lines
270-277): `IsSet=false`, nil entity id and name, sentinel score `-1.0`, and an
explicitly allocated empty (non-nil) programs slice. -/
def emptySearchResult : SearchResult where
  IsSet := false
  EntityID := none
  SdnName := none
  SdnType := ""
  Score := -1
  Programs := []

/-- Embeds `searchByName` of search_batch.go lines 264-316, paired with the number of
network calls it makes.  The empty-name validation error happens before any
call; the primary search is one call; the alternate-name customer lookup is a
second call.  First match in `SDNs` wins; otherwise the first `AltNames`
entry's entity id is looked up and used only when the resolved `Sdn.EntityID`
echoes it; in every remaining case the nil-error `empty_result` is returned. -/
def searchByName (api : ApiClient) (name : String) :
    Except String SearchResult × ℕ :=
  if name = "" then (.error "searchByName: name is empty", 0)
  else
    match api.Search name with
    | .error e => (.error ("searchByName.Search: " ++ e), 1)
    | .ok search_result =>
      match search_result.SDNs with
      | sdn :: _ => (.ok (newSearchResult sdn sdn.EntityID sdn.Match), 1)
      | [] =>
        match search_result.AltNames with
        | [] => (.ok emptySearchResult, 1)
        | alt :: _ =>
          match api.GetOfacCustomer alt.EntityID with
          | .error e => (.error ("searchByName.GetOfacCustomer: " ++ e), 2)
          | .ok customer_result =>
            if customer_result.Sdn.EntityID = alt.EntityID then
              (.ok (newSearchResult customer_result.Sdn alt.EntityID alt.Match), 2)
            else
              (.ok emptySearchResult, 2)

/-! ## The batch dispatcher `ProcessRows` (search_batch.go lines 106-160)

Each worker goroutine computes the row's name, runs the search, and on
success delivers `ChanResult{Index: i, Value: formattedLine}` on the channel;
on a search error it logs and delivers nothing, leaving the pre-sized output
slot at its zero value `""`.  The collector drains the channel and writes
`output[r.Index+1] = r.Value`.  The channel's arrival order is
nondeterministic, so it is an explicit argument `arrival`: the list of row
indices in completion order (a permutation of the successful rows'
indices). -/

/-- What one worker goroutine (lines 121-140) delivers for its row: `none`
when `searchByName` fails (nothing is sent), otherwise the match record or
the clear record. -/
def rowValue (matchThreshold : ℚ) (now : String)
    (searchFn : String → Except String SearchResult) (row : String) :
    Option String :=
  match searchFn (getNameFromRow row) with
  | .error _ => none
  | .ok result =>
    some (if result.IsSet then newSearchResultRecord matchThreshold now result row
          else newSearchResultClearRecord matchThreshold now result row)

/-- The completion-channel contents in arrival order: for each index in
`arrival`, the corresponding row's delivery (skipping failed rows). -/
def chanResults (matchThreshold : ℚ) (now : String)
    (searchFn : String → Except String SearchResult)
    (dataRows : List String) (arrival : List ℕ) : List ChanResult :=
  arrival.filterMap fun i =>
    (dataRows[i]?).bind fun row =>
      (rowValue matchThreshold now searchFn row).map fun v => ⟨i, v⟩

/-- The collector loop (lines 149-151): `output[r.Index+1] = r.Value` for each
delivery, in arrival order. -/
def collectOutput (init : List String) (results : List ChanResult) :
    List String :=
  results.foldl (fun out r => out.set (r.Index + 1) r.Value) init

/-- Embeds `ProcessRows` of search_batch.go lines 106-160 (its Go error result is
the constant `nil`, line 159, so only the output slice is modelled): strip
the header row, pre-size the output to `len(rows)+1`, write the synthesized
header into slot 0, and collect the completions.  `arrival` is the channel's
arrival order. -/
def ProcessRows (rows : List String) (matchThreshold : ℚ) (now : String)
    (searchFn : String → Except String SearchResult) (arrival : List ℕ) :
    List String :=
  match rows with
  | [] => []
  | headings :: dataRows =>
    collectOutput
      ((List.replicate (dataRows.length + 1) "").set 0 (writeHeadings headings))
      (chanResults matchThreshold now searchFn dataRows arrival)

/-- The completion report of `ProcessRows` (lines 152-157): `output_size` is
`len(output) - 1`, and the `[FAILURES]` line is logged only when it differs
from `input_size`. -/
def processSummary (input_size : ℕ) (output : List String) : BatchSummary :=
  if input_size = output.length - 1 then .success (output.length - 1)
  else .failures (output.length - 1) input_size

/-! ## The worker gate (spec §4.4/§5)

Modelled from the spec: the counting semaphore bounding in-flight rows (the
`syncutil.Gate` from go4.org used at search_batch.go lines 114, 120, 122 is a
dependency, not repository code; the spec describes it as "an explicit
counting semaphore" with capacity `workerLimit` whose acquire blocks at
capacity).  The dispatcher loop (lines 118-141) acquires a slot
(`workers.Start()`) before launching each row's goroutine and the goroutine
releases it (`defer workers.Done()`) when its search task finishes, so a row
is in flight exactly while it holds a slot. -/

/-- Dispatcher state: how many of the `n` rows have acquired a worker slot
and been launched, and how many have finished and released their slot. -/
structure DispatchState where
  dispatched : ℕ
  completed : ℕ
  deriving Repr, DecidableEq

/-- One transition of the dispatcher with worker limit `W` over `n` rows:
`start` launches the next row, blocking unless a slot is free
(`dispatched - completed < W`); `finish` completes one in-flight row. -/
inductive DispatchStep (W n : ℕ) : DispatchState → DispatchState → Prop where
  | start (s : DispatchState) (hrows : s.dispatched < n)
      (hgate : s.dispatched - s.completed < W) :
      DispatchStep W n s ⟨s.dispatched + 1, s.completed⟩
  | finish (s : DispatchState) (h : s.completed < s.dispatched) :
      DispatchStep W n s ⟨s.dispatched, s.completed + 1⟩

/-- States reachable by the dispatcher from the initial state (no row
launched, none finished). -/
inductive DispatchReachable (W n : ℕ) : DispatchState → Prop where
  | init : DispatchReachable W n ⟨0, 0⟩
  | step {s s' : DispatchState} : DispatchReachable W n s →
      DispatchStep W n s s' → DispatchReachable W n s'

/-- Rows currently between acquiring and releasing a worker slot. -/
def inFlight (s : DispatchState) : ℕ := s.dispatched - s.completed

/-! ## The CLI batch variant (cmd/cc_batchsearch, `processRows`)

The CLI collector differs from the server one: workers deliver the bare
formatted record (no index) on `resultsChan`, and the collector writes each
arrival to `output[count]` with `count` starting at 1 and incremented per
arrival — sequential slots in arrival order. -/

/-- Models `strings.TrimRight` with cutset `","` as used by the CLI record formatters. -/
def trimTrailingCommas (s : String) : String :=
  String.mk ((s.data.reverse.dropWhile (· == ',')).reverse)

/-- The CLI `writeHeadings` (part_000 lines 244-255). -/
def cliWriteHeadings (original_headings : String) : String :=
  trimTrailingCommas original_headings ++ ","
    ++ "Result" ++ "," ++ "SdnName" ++ "," ++ "EntityID" ++ ","
    ++ "Score" ++ "," ++ "Programs" ++ "," ++ "Timestamp"

/-- The CLI `newSearchResultRecord` (part_000 lines 216-233): like the server
one but the input row is only right-trimmed of commas. -/
def cliSearchResultRecord (threshold : ℚ) (now : String)
    (result : SearchResult) (input_row : String) : String :=
  trimTrailingCommas input_row ++ "," ++ getNoun threshold result.Score ++ ","
    ++ sdnNameNoComma (result.SdnName.getD "") ++ "," ++ result.EntityID.getD ""
    ++ "," ++ formatFloat2 result.Score ++ "," ++ formatPrograms result.Programs
    ++ "," ++ now

/-- The CLI `newSearchResultClearRecord` (part_000 lines 235-242). -/
def cliClearRecord (threshold : ℚ) (now : String)
    (result : SearchResult) (searched_name : String) : String :=
  trimTrailingCommas searched_name ++ "," ++ getNoun threshold result.Score
    ++ ",,,,," ++ now

/-- The CLI name composition (part_000 lines 112-113): `"{cols[2]}, {cols[1]}"`
with no trimming (Go panics on rows with fewer than 3 columns; `getD ""`
stands in for the out-of-range case, which the claims never exercise). -/
def cliNameFromRow (row : String) : String :=
  let cols := goSplit ',' row
  cols.getD 2 "" ++ ", " ++ cols.getD 1 ""

/-- What one CLI worker (part_000 lines 107-132) delivers for its row:
`none` when `searchByName` fails (the row only marks the exit code),
otherwise the bare formatted record — without the row index. -/
def cliRowRecord (threshold : ℚ) (now : String)
    (searchFn : String → Except String SearchResult) (row : String) :
    Option String :=
  match searchFn (cliNameFromRow row) with
  | .error _ => none
  | .ok result =>
    some (if result.IsSet then cliSearchResultRecord threshold now result row
          else cliClearRecord threshold now result row)

/-- The CLI channel contents in arrival order: the successful rows' records,
ordered by completion (`arrival` is the completion order of row indices). -/
def cliArrivalRecords (threshold : ℚ) (now : String)
    (searchFn : String → Except String SearchResult)
    (dataRows : List String) (arrival : List ℕ) : List String :=
  arrival.filterMap fun i => (dataRows[i]?).bind (cliRowRecord threshold now searchFn)

/-- The CLI collector loop (part_000 lines 141-145): write each arrival to
`output[count]`, incrementing `count`, starting at `k`. -/
def cliCollect (init : List String) (k : ℕ) (arrivals : List String) :
    List String × ℕ :=
  arrivals.foldl (fun p r => (p.1.set p.2 r, p.2 + 1)) (init, k)

/-- The CLI `processRows` output slice (part_000 lines 88-164): header into
slot 0 of the pre-sized output, then sequential collection of the channel
arrivals starting at slot 1. -/
def cliProcessRows (rows : List String) (threshold : ℚ) (now : String)
    (searchFn : String → Except String SearchResult) (arrival : List ℕ) :
    List String :=
  match rows with
  | [] => []
  | headings :: dataRows =>
    (cliCollect
      ((List.replicate (dataRows.length + 1) "").set 0 (cliWriteHeadings headings))
      1 (cliArrivalRecords threshold now searchFn dataRows arrival)).1

/-! ## Concrete scenario data -/

/-- The exact rational value of the IEEE-754 double written `0.995` in Go
(`0.99499999999999999555…`, slightly below 995/1000). -/
def float0995 : ℚ := ⟨8962163258467287, 9007199254740992, by decide, by decide⟩

/-- The exact rational value of the IEEE-754 double written `0.99` in Go. -/
def float099 : ℚ := ⟨4458563631096791, 4503599627370496, by decide, by decide⟩

/-- The single candidate of the C6 scenario: entity id 007, name
"Smith, John", score 0.995 (as the `SearchResult` built by `searchByName`
from the first returned SDN). -/
def c6Result : SearchResult :=
  newSearchResult ⟨"007", "Smith, John", "individual", [], float0995⟩ "007" float0995

/-- A remote service returning no candidates and no alternate names. -/
def noHitApi : ApiClient where
  Search := fun _ => .ok ⟨[], []⟩
  GetOfacCustomer := fun _ => .error "unused"

/-- The per-row search function `ProcessRows` actually uses (line 127):
`searchByName` against a fixed api, keeping only the `(result, err)` pair. -/
def searchFnOf (api : ApiClient) : String → Except String SearchResult :=
  fun name => (searchByName api name).1

/-- A per-row search that fails (transport error) exactly for the subject
`"B, A"` — i.e. for the input row `"1,A,B"` — and finds nothing otherwise. -/
def failBAFn : String → Except String SearchResult :=
  fun name => if name = "B, A" then .error "searchByName.Search: boom"
              else .ok emptySearchResult

/-- A per-row search that always succeeds with the empty (no-match) result. -/
def clearOnlyFn : String → Except String SearchResult :=
  fun _ => .ok emptySearchResult

/-- A remote service with no direct candidates, one alternate-name cross
reference to entity "42", and a lookup that resolves to a different entity
"13" (the resolution-mismatch scenario of C8). -/
def mismatchApi : ApiClient where
  Search := fun _ => .ok ⟨[], [⟨"42", "Smythe", float099⟩]⟩
  GetOfacCustomer := fun _ => .ok ⟨⟨"13", "Nobody", "individual", [], 0⟩⟩

/-- The response `mismatchApi.Search` returns. -/
def mismatchResponse : SearchResponse := ⟨[], [⟨"42", "Smythe", float099⟩]⟩

/-! ## Helper lemmas -/

lemma delimCut_eq_specDelim : delimCut = specDelim := by
  funext c
  simp only [delimCut, specDelim]
  cases h1 : c == ',' <;> cases h2 : c == '\n' <;> cases h3 : c == '\r' <;>
    cases h4 : c == '\t' <;> rfl

lemma trimDelimiters_eq_specTrim (s : String) : trimDelimiters s = specTrim s := by
  simp [trimDelimiters, specTrim, delimCut_eq_specDelim]

lemma collectOutput_length (rs : List ChanResult) (init : List String) :
    (collectOutput init rs).length = init.length := by
  induction rs generalizing init with
  | nil => rfl
  | cons r rest ih => simp [collectOutput, List.foldl_cons, ih, List.length_set] at ih ⊢
                      exact (ih _).trans (List.length_set ..)

lemma collectOutput_getElem_not_mem (rs : List ChanResult) (init : List String)
    (k : ℕ) (h : ∀ r ∈ rs, r.Index + 1 ≠ k) :
    (collectOutput init rs)[k]? = init[k]? := by
  induction rs generalizing init with
  | nil => rfl
  | cons r rest ih =>
    have : (collectOutput (init.set (r.Index + 1) r.Value) rest)[k]? =
        (init.set (r.Index + 1) r.Value)[k]? :=
      ih _ (fun x hx => h x (List.mem_cons_of_mem r hx))
    calc (collectOutput init (r :: rest))[k]?
        = (init.set (r.Index + 1) r.Value)[k]? := this
      _ = init[k]? := List.getElem?_set_ne (h r (List.mem_cons_self r rest))

lemma collectOutput_append (l1 l2 : List ChanResult) (init : List String) :
    collectOutput init (l1 ++ l2) = collectOutput (collectOutput init l1) l2 :=
  List.foldl_append ..

lemma collectOutput_getElem_written (l1 l2 : List ChanResult) (r : ChanResult)
    (init : List String) (h2 : ∀ x ∈ l2, x.Index ≠ r.Index)
    (hlt : r.Index + 1 < init.length) :
    (collectOutput init (l1 ++ r :: l2))[r.Index + 1]? = some r.Value := by
  have hlen : r.Index + 1 < (collectOutput init l1).length := by
    rw [collectOutput_length]; exact hlt
  calc (collectOutput init (l1 ++ r :: l2))[r.Index + 1]?
      = (collectOutput (collectOutput init l1) (r :: l2))[r.Index + 1]? := by
        rw [collectOutput_append]
    _ = (collectOutput ((collectOutput init l1).set (r.Index + 1) r.Value) l2)[r.Index + 1]? := rfl
    _ = ((collectOutput init l1).set (r.Index + 1) r.Value)[r.Index + 1]? :=
        collectOutput_getElem_not_mem _ _ _
          (fun x hx => by exact fun hc => h2 x hx (by omega))
    _ = some r.Value := List.getElem?_set_eq_of_lt r.Value hlen

lemma mem_chanResults_index {t : ℚ} {now : String}
    {f : String → Except String SearchResult} {dataRows : List String}
    {l : List ℕ} {x : ChanResult} (hx : x ∈ chanResults t now f dataRows l) :
    x.Index ∈ l := by
  rcases List.mem_filterMap.mp hx with ⟨i, hi, hgi⟩
  rcases Option.bind_eq_some.mp hgi with ⟨row, _, hrow⟩
  rcases Option.map_eq_some'.mp hrow with ⟨v, _, hv⟩
  cases hv
  exact hi

lemma chanResults_singleton {t : ℚ} {now : String}
    {f : String → Except String SearchResult} {dataRows : List String}
    {i : ℕ} {row : String} {v : String} (hrow : dataRows[i]? = some row)
    (hv : rowValue t now f row = some v) :
    chanResults t now f dataRows [i] = [⟨i, v⟩] := by
  simp [chanResults, hrow, hv]

lemma chanResults_cons (t : ℚ) (now : String)
    (f : String → Except String SearchResult) (dataRows : List String)
    (i : ℕ) (l : List ℕ) :
    chanResults t now f dataRows (i :: l) =
      (((dataRows[i]?).bind fun row =>
        (rowValue t now f row).map fun v => ChanResult.mk i v).toList)
        ++ chanResults t now f dataRows l := by
  simp only [chanResults, List.filterMap_cons]
  cases h : ((dataRows[i]?).bind fun row =>
      (rowValue t now f row).map fun v => ChanResult.mk i v) <;> simp [h]

lemma chanResults_append (t : ℚ) (now : String)
    (f : String → Except String SearchResult) (dataRows : List String)
    (l1 l2 : List ℕ) :
    chanResults t now f dataRows (l1 ++ l2) =
      chanResults t now f dataRows l1 ++ chanResults t now f dataRows l2 :=
  List.filterMap_append ..

lemma set_append_cons {α : Type} (pre : List α) (b : α) (post : List α) (a : α) :
    (pre ++ b :: post).set pre.length a = pre ++ a :: post := by
  induction pre with
  | nil => simp
  | cons x xs ih => simp [List.set, ih]

lemma cliCollect_spec (arrivals : List String) (pre post : List String)
    (h : arrivals.length ≤ post.length) :
    (cliCollect (pre ++ post) pre.length arrivals).1 =
      pre ++ arrivals ++ post.drop arrivals.length := by
  induction arrivals generalizing pre post with
  | nil => simp [cliCollect]
  | cons a rest ih =>
    match post with
    | [] => simp at h
    | b :: post' =>
      have hrest : rest.length ≤ post'.length := by
        simpa [Nat.succ_le_succ_iff] using h
      have hstep : (pre ++ b :: post').set pre.length a = (pre ++ [a]) ++ post' := by
        rw [set_append_cons]; simp
      calc (cliCollect (pre ++ b :: post') pre.length (a :: rest)).1
          = (cliCollect ((pre ++ b :: post').set pre.length a)
              (pre.length + 1) rest).1 := rfl
        _ = (cliCollect ((pre ++ [a]) ++ post') (pre ++ [a]).length rest).1 := by
            rw [hstep]; simp
        _ = (pre ++ [a]) ++ rest ++ post'.drop rest.length := ih _ _ hrest
        _ = pre ++ (a :: rest) ++ (b :: post').drop (a :: rest).length := by
            simp

lemma ProcessRows_length (headings : String) (dataRows : List String)
    (t : ℚ) (now : String) (f : String → Except String SearchResult)
    (arrival : List ℕ) :
    (ProcessRows (headings :: dataRows) t now f arrival).length =
      dataRows.length + 1 := by
  simp [ProcessRows, collectOutput_length, List.length_set, List.length_replicate]

/-! ## The claims -/

/-- C3.  For every score `s < 0` and every threshold `t` (including negative
`t`), the classifier returns Clear, independent of the threshold: `getNoun`
tests `score < 0.0` first and never consults `matchThreshold` on that path. -/
theorem getNoun_neg_clear (s t : ℚ) (hs : s < 0) : getNoun t s = "Clear" := by
  simp [getNoun, hs]

/-- Closed instance of `getNoun_neg_clear` at `s = -1`, `t = -2`. -/
theorem getNoun_neg_clear_witness :
    (-1 : ℚ) < 0 ∧ getNoun (-2) (-1) = "Clear" :=
  ⟨by norm_num, getNoun_neg_clear (-1) (-2) (by norm_num)⟩

/-- C4 counterexample.  The claim "for every s, t with s ≥ t the classifier
returns Match" fails at `s = -1`, `t = -2`: the `score < 0` test comes first,
so `getNoun` returns "Clear", not "MATCH". -/
theorem getNoun_ge_not_always_match :
    (-1 : ℚ) ≥ (-2 : ℚ) ∧ getNoun (-2) (-1) ≠ "MATCH" := by
  constructor
  · norm_num
  · simp [getNoun]

/-- C4 amended.  For every `s, t` with `0 ≤ s` and `s ≥ t` the classifier
returns "MATCH", and for every `s, t` with `0 ≤ s < t` it returns "Hit". -/
theorem getNoun_nonneg_cases (s t : ℚ) :
    (0 ≤ s → s ≥ t → getNoun t s = "MATCH") ∧
    (0 ≤ s → s < t → getNoun t s = "Hit") := by
  constructor
  · intro h0 hge
    simp [getNoun, not_lt.mpr h0, hge]
  · intro h0 hlt
    simp [getNoun, not_lt.mpr h0, not_le.mpr hlt]

/-- Closed instance of `getNoun_nonneg_cases`: `s = 1, t = 1/2` gives "MATCH"
and `s = 1/4, t = 1/2` gives "Hit". -/
theorem getNoun_nonneg_cases_witness :
    getNoun (1/2) 1 = "MATCH" ∧ getNoun (1/2) (1/4) = "Hit" :=
  ⟨(getNoun_nonneg_cases 1 (1/2)).1 (by norm_num) (by norm_num),
   (getNoun_nonneg_cases (1/4) (1/2)).2 (by norm_num) (by norm_num)⟩

/-- C9.  `getNameFromRow` implements the spec's fixed column mapping (§4.1),
with every extracted field trimmed of leading/trailing commas, tabs, newlines
and carriage returns (`specTrim`, written from the spec's words, coincides
with the source's `trimDelimiters`). -/
theorem getNameFromRow_spec (row : String) :
    (∀ s, trimDelimiters s = specTrim s) ∧
    (3 ≤ (goSplit ',' row).length →
      getNameFromRow row =
        specTrim ((goSplit ',' row).getD 2 "") ++ ", " ++
          specTrim ((goSplit ',' row).getD 1 "")) ∧
    ((goSplit ',' row).length = 2 →
      getNameFromRow row =
        specTrim ((goSplit ',' row).getD 1 "") ++ ", " ++
          specTrim ((goSplit ',' row).getD 0 "")) ∧
    ((goSplit ',' row).length = 1 →
      getNameFromRow row = specTrim ((goSplit ',' row).getD 0 "")) := by
  refine ⟨trimDelimiters_eq_specTrim, ?_, ?_, ?_⟩
  · intro h
    simp only [getNameFromRow, if_pos h, trimDelimiters_eq_specTrim]
  · intro h
    have h3 : ¬ (goSplit ',' row).length ≥ 3 := by omega
    simp only [getNameFromRow, if_neg h3, if_pos h, trimDelimiters_eq_specTrim]
  · intro h
    have h3 : ¬ (goSplit ',' row).length ≥ 3 := by omega
    have h2 : ¬ (goSplit ',' row).length = 2 := by omega
    simp only [getNameFromRow, if_neg h3, if_neg h2, trimDelimiters_eq_specTrim]

/-- Closed instances of `getNameFromRow_spec`: a 4-field row (with embedded
tab/newline), a 2-field row and a 1-field row, one per mapping rule. -/
theorem getNameFromRow_spec_witness :
    (3 ≤ (goSplit ',' "id,Last\t,\nFirst,x").length ∧
      getNameFromRow "id,Last\t,\nFirst,x" =
        specTrim ((goSplit ',' "id,Last\t,\nFirst,x").getD 2 "") ++ ", " ++
          specTrim ((goSplit ',' "id,Last\t,\nFirst,x").getD 1 "")) ∧
    ((goSplit ',' "Last,First").length = 2 ∧
      getNameFromRow "Last,First" =
        specTrim ((goSplit ',' "Last,First").getD 1 "") ++ ", " ++
          specTrim ((goSplit ',' "Last,First").getD 0 "")) ∧
    ((goSplit ',' "solo\r").length = 1 ∧
      getNameFromRow "solo\r" = specTrim ((goSplit ',' "solo\r").getD 0 "")) :=
  ⟨⟨by decide, (getNameFromRow_spec "id,Last\t,\nFirst,x").2.1 (by decide)⟩,
   ⟨by decide, (getNameFromRow_spec "Last,First").2.2.1 (by decide)⟩,
   ⟨by decide, (getNameFromRow_spec "solo\r").2.2.2 (by decide)⟩⟩

/-- C6 counterexample.  The claimed output row is wrong about the SdnName
column: `strings.Split("Smith, John", ",")` keeps the space after the comma
and the parts are not trimmed, so the formatted row differs from the claimed
`"123,Smith,John,MATCH,John Smith,007,0.99,[],<timestamp>"`. -/
theorem c6_record_ne_claimed :
    newSearchResultRecord float099 "2026-01-01T00:00:00Z" c6Result "123,Smith,John"
      ≠ "123,Smith,John,MATCH,John Smith,007,0.99,[],2026-01-01T00:00:00Z" := by
  decide

/-- C6 amended.  For the row `"123,Smith,John"` with the single candidate
{entity 007, name "Smith, John", score 0.995} and threshold 0.99, the
formatted row is `"123,Smith,John,MATCH, John Smith,007,0.99,[],<timestamp>"`
— as claimed except for a leading space in the SdnName field (`" John Smith"`),
for every timestamp `now`. -/
theorem c6_record_eq (now : String) :
    newSearchResultRecord float099 now c6Result "123,Smith,John"
      = "123,Smith,John,MATCH, John Smith,007,0.99,[]," ++ now :=
  congrArg (· ++ now) (by decide)

/-- C1.  For `N` data rows plus a header, when every row's search succeeds and
the completion channel delivers the per-row results in an arbitrary order
(`arrival` is any permutation of the row indices), `ProcessRows` produces
exactly `N` formatted rows plus the header at slot 0, and slot `i+1` holds
row `i`'s formatted result — placement uses the original index, not arrival
order. -/
theorem ProcessRows_preserves_order (headings : String) (dataRows : List String)
    (t : ℚ) (now : String) (f : String → Except String SearchResult)
    (arrival : List ℕ)
    (hperm : arrival.Perm (List.range dataRows.length))
    (hok : ∀ row ∈ dataRows, (rowValue t now f row).isSome) :
    (ProcessRows (headings :: dataRows) t now f arrival).length
        = dataRows.length + 1 ∧
    (ProcessRows (headings :: dataRows) t now f arrival)[0]?
        = some (writeHeadings headings) ∧
    ∀ i, i < dataRows.length →
      (ProcessRows (headings :: dataRows) t now f arrival)[i + 1]? =
        rowValue t now f (dataRows.getD i "") := by
  have hinitlen :
      ((List.replicate (dataRows.length + 1) "").set 0
        (writeHeadings headings)).length = dataRows.length + 1 := by
    simp [List.length_set, List.length_replicate]
  refine ⟨ProcessRows_length headings dataRows t now f arrival, ?_, ?_⟩
  · show (collectOutput _ _)[0]? = _
    rw [collectOutput_getElem_not_mem _ _ _ (fun r _ => by omega)]
    rw [List.getElem?_set_eq_of_lt]
    simp
  · intro i hi
    have hmem : i ∈ arrival := hperm.mem_iff.mpr (List.mem_range.mpr hi)
    have hnodup : arrival.Nodup :=
      hperm.nodup_iff.mpr (List.nodup_range dataRows.length)
    obtain ⟨s1, s2, rfl⟩ := List.append_of_mem hmem
    have hnotmem : i ∉ s2 := by
      have h2 : (i :: s2).Nodup :=
        hnodup.sublist (List.sublist_append_right s1 (i :: s2))
      exact (List.nodup_cons.mp h2).1
    have hrow : dataRows[i]? = some dataRows[i] := List.getElem?_eq_getElem hi
    obtain ⟨v, hv⟩ := Option.isSome_iff_exists.mp
      (hok dataRows[i] (dataRows.getElem_mem hi))
    have hsplit : chanResults t now f dataRows (s1 ++ i :: s2) =
        chanResults t now f dataRows s1 ++
          (⟨i, v⟩ :: chanResults t now f dataRows s2) := by
      rw [chanResults_append, chanResults_cons, hrow]
      simp [hv]
    have hgoal : (collectOutput
        ((List.replicate (dataRows.length + 1) "").set 0 (writeHeadings headings))
        (chanResults t now f dataRows (s1 ++ i :: s2)))[i + 1]? = some v := by
      rw [hsplit]
      exact collectOutput_getElem_written _ _ ⟨i, v⟩ _
        (fun x hx hc => hnotmem (by simpa [hc] using mem_chanResults_index hx))
        (by show i + 1 < _; rw [hinitlen]; omega)
    show (collectOutput _ _)[i + 1]? = _
    rw [hgoal]
    have hgetD : dataRows.getD i "" = dataRows[i] := by
      simp [List.getD_eq_getElem?_getD, hrow]
    rw [hgetD, hv]

/-- Closed instance of `ProcessRows_preserves_order`: two rows, completion
order reversed (`arrival = [1, 0]`), slot 1 still holds row 0's record. -/
theorem ProcessRows_preserves_order_witness :
    List.Perm [1, 0] (List.range (["1,a,b", "2,c,d"] : List String).length) ∧
    (∀ row ∈ (["1,a,b", "2,c,d"] : List String),
      (rowValue float099 "T" clearOnlyFn row).isSome) ∧
    (ProcessRows ["h0", "1,a,b", "2,c,d"] float099 "T" clearOnlyFn [1, 0])[0 + 1]? =
      rowValue float099 "T" clearOnlyFn ((["1,a,b", "2,c,d"] : List String).getD 0 "") :=
  ⟨by decide, by decide,
   (ProcessRows_preserves_order "h0" ["1,a,b", "2,c,d"] float099 "T" clearOnlyFn
     [1, 0] (by decide) (by decide)).2.2 0 (by decide)⟩

/-- C7.  A query with empty Subject is rejected by `searchByName` before any
network call (zero calls, immediate validation error), and in `ProcessRows`
such a row's output slot is left as the failed marker `""` while the rest of
the batch continues (here: row `""` fails, row `"1,A,B"` still produces its
clear record against a no-hit remote service). -/
theorem searchByName_empty_subject :
    (∀ api : ApiClient,
      searchByName api "" = (.error "searchByName: name is empty", 0)) ∧
    ProcessRows ["id,last,first", "", "1,A,B"] float099 "T"
        (searchFnOf noHitApi) [1] =
      ["id,last,first,Result,SdnName,EntityID,Score,Programs,Timestamp", "",
       "1,A,B,Clear,,,,,T"] :=
  ⟨fun _ => rfl, by decide⟩

/-- C5.  The partial-failure summary of `ProcessRows` is unreachable:
`output_size` is `len(output) - 1` of the pre-sized output, which always
equals `input_size`, so the report is `[SUCCESS] N checks complete` no matter
how many rows failed.  Concretely, with 2 input rows of which row 0's search
fails, the output keeps a blank slot for the failed row yet the summary still
reports success with count 2 (not "1 of 2"). -/
theorem processSummary_always_success :
    (∀ (headings : String) (dataRows : List String) (t : ℚ) (now : String)
        (f : String → Except String SearchResult) (arrival : List ℕ),
      processSummary dataRows.length
          (ProcessRows (headings :: dataRows) t now f arrival) =
        .success dataRows.length) ∧
    ProcessRows ["id,last,first", "1,A,B", "2,C,D"] float099 "T" failBAFn [1] =
      ["id,last,first,Result,SdnName,EntityID,Score,Programs,Timestamp", "",
       "2,C,D,Clear,,,,,T"] ∧
    processSummary 2
        (ProcessRows ["id,last,first", "1,A,B", "2,C,D"] float099 "T" failBAFn [1]) =
      .success 2 := by
  refine ⟨?_, by decide, by decide⟩
  intro headings dataRows t now f arrival
  have h := ProcessRows_length headings dataRows t now f arrival
  simp [processSummary, h]

lemma dispatch_invariant {W n : ℕ} {s : DispatchState}
    (h : DispatchReachable W n s) :
    s.completed ≤ s.dispatched ∧ s.dispatched - s.completed ≤ W ∧
      s.dispatched ≤ n := by
  induction h with
  | init => simp
  | step _ hstep ih =>
    cases hstep with
    | start hrows hgate => dsimp only at ih ⊢; omega
    | finish hlt => dsimp only at ih ⊢; omega

/-- C2.  In every reachable state of the dispatcher loop of `ProcessRows`
(each row acquires a worker-gate slot before its search task starts and
releases it when the task finishes), at most `W` rows are in flight: the
dispatcher never fans out beyond the worker limit. -/
theorem dispatch_inFlight_le (W n : ℕ) (s : DispatchState)
    (h : DispatchReachable W n s) : inFlight s ≤ W := by
  have hinv := dispatch_invariant h
  unfold inFlight
  omega

/-- Closed instance of `dispatch_inFlight_le`: with worker limit 4 and 1000
rows, the state with 4 launched and none finished is reachable and holds
exactly the bound. -/
theorem dispatch_inFlight_le_witness :
    DispatchReachable 4 1000 ⟨4, 0⟩ ∧ inFlight ⟨4, 0⟩ ≤ 4 := by
  have h1 : DispatchReachable 4 1000 ⟨1, 0⟩ :=
    .step .init (.start ⟨0, 0⟩ (by decide) (by decide))
  have h2 : DispatchReachable 4 1000 ⟨2, 0⟩ :=
    .step h1 (.start ⟨1, 0⟩ (by decide) (by decide))
  have h3 : DispatchReachable 4 1000 ⟨3, 0⟩ :=
    .step h2 (.start ⟨2, 0⟩ (by decide) (by decide))
  have h4 : DispatchReachable 4 1000 ⟨4, 0⟩ :=
    .step h3 (.start ⟨3, 0⟩ (by decide) (by decide))
  exact ⟨h4, dispatch_inFlight_le 4 1000 ⟨4, 0⟩ h4⟩

/-- C8.  When the primary response has no direct candidates and the
alternate-name path yields no lookup result echoing the requested entity id
(no alternate names at all, or the resolved entity id differs from the
requested one), `searchByName` returns a nil error with the empty result:
`IsSet = false`, sentinel score `-1.0`, nil entity id and name, and an empty
programs list — the no-match case is not an error. -/
theorem searchByName_no_match (api : ApiClient) (name : String)
    (hname : name ≠ "") (sr : SearchResponse)
    (hsearch : api.Search name = .ok sr) (hsdn : sr.SDNs = [])
    (halt : sr.AltNames = [] ∨
      ∃ alt rest customer, sr.AltNames = alt :: rest ∧
        api.GetOfacCustomer alt.EntityID = .ok customer ∧
        customer.Sdn.EntityID ≠ alt.EntityID) :
    (searchByName api name).1 = .ok emptySearchResult ∧
    emptySearchResult.IsSet = false ∧ emptySearchResult.Score = -1 ∧
    emptySearchResult.EntityID = none ∧ emptySearchResult.SdnName = none ∧
    emptySearchResult.Programs = [] := by
  refine ⟨?_, rfl, rfl, rfl, rfl, rfl⟩
  rcases halt with halt | ⟨alt, rest, customer, haltEq, hcust, hne⟩
  · simp [searchByName, hname, hsearch, hsdn, halt]
  · simp [searchByName, hname, hsearch, hsdn, haltEq, hcust, hne]

/-- Closed instance of `searchByName_no_match`: the resolution-mismatch
scenario (alternate name points at entity "42", the lookup resolves to
entity "13"). -/
theorem searchByName_no_match_witness :
    ("Smythe" : String) ≠ "" ∧
    mismatchApi.Search "Smythe" = .ok mismatchResponse ∧
    mismatchResponse.SDNs = [] ∧
    (searchByName mismatchApi "Smythe").1 = .ok emptySearchResult :=
  ⟨by decide, rfl, rfl,
   (searchByName_no_match mismatchApi "Smythe" (by decide) mismatchResponse rfl rfl
     (Or.inr ⟨⟨"42", "Smythe", float099⟩, [], ⟨⟨"13", "Nobody", "individual", [], 0⟩⟩,
       rfl, rfl, by decide⟩)).1⟩

/-- C10.  In the CLI variant's `processRows`, deliveries carry no index and
the collector writes each arrival to the next sequential slot, so the data
portion of the output is the successful rows' records in completion-arrival
order (followed by the untouched `""` slots of failed rows); reversing the
completion order of two rows reorders the output, so output order can differ
from input order. -/
theorem cliProcessRows_arrival_order :
    (∀ (headings : String) (dataRows : List String) (t : ℚ) (now : String)
        (f : String → Except String SearchResult) (arrival : List ℕ),
      (cliArrivalRecords t now f dataRows arrival).length ≤ dataRows.length →
      cliProcessRows (headings :: dataRows) t now f arrival =
        cliWriteHeadings headings ::
          (cliArrivalRecords t now f dataRows arrival ++
            List.replicate (dataRows.length -
              (cliArrivalRecords t now f dataRows arrival).length) "")) ∧
    cliProcessRows ["h0", "1,a,b", "2,c,d"] float099 "T" clearOnlyFn [1, 0] ≠
      cliProcessRows ["h0", "1,a,b", "2,c,d"] float099 "T" clearOnlyFn [0, 1] := by
  constructor
  · intro headings dataRows t now f arrival h
    have hinit : (List.replicate (dataRows.length + 1) "").set 0
        (cliWriteHeadings headings) =
        [cliWriteHeadings headings] ++ List.replicate dataRows.length "" := by
      simp [List.replicate_succ]
    show (cliCollect _ 1 _).1 = _
    rw [hinit]
    have hlen : (cliArrivalRecords t now f dataRows arrival).length ≤
        (List.replicate dataRows.length ("" : String)).length := by
      simpa using h
    have := cliCollect_spec (cliArrivalRecords t now f dataRows arrival)
      [cliWriteHeadings headings] (List.replicate dataRows.length "") hlen
    simp only [List.length_cons, List.length_nil] at this
    rw [this, List.drop_replicate]
    simp
  · decide

/-- Closed instance of `cliProcessRows_arrival_order`: two successful rows
delivered in reversed order land in slots 1 and 2 in that arrival order. -/
theorem cliProcessRows_arrival_order_witness :
    (cliArrivalRecords float099 "T" clearOnlyFn ["1,a,b", "2,c,d"] [1, 0]).length ≤
      (["1,a,b", "2,c,d"] : List String).length ∧
    cliProcessRows ["h0", "1,a,b", "2,c,d"] float099 "T" clearOnlyFn [1, 0] =
      cliWriteHeadings "h0" ::
        (cliArrivalRecords float099 "T" clearOnlyFn ["1,a,b", "2,c,d"] [1, 0] ++
          List.replicate ((["1,a,b", "2,c,d"] : List String).length -
            (cliArrivalRecords float099 "T" clearOnlyFn
              ["1,a,b", "2,c,d"] [1, 0]).length) "") :=
  ⟨by decide,
   cliProcessRows_arrival_order.1 "h0" ["1,a,b", "2,c,d"] float099 "T"
     clearOnlyFn [1, 0] (by decide)⟩

end Watchman
